import Mathlib

/-!
Shallow embedding of `ing2ofx.py` (ING CSV → OFX converter).

Python strings are modelled as `List Char`; Python's `dict` lookup that can
raise `KeyError` is modelled by `Option`; the per-run set of already used
transaction IDs is modelled by a `List (List Char)` (only membership is used).
-/

namespace IngToOfx

/-- Whitespace characters removed by Python's `str.strip()`. -/
def isPySpace (c : Char) : Bool :=
  c = ' ' || c = '\t' || c = '\n' || c = '\x0b' || c = '\x0c' || c = '\r'

/-- `s.replace(c, r)` for a single-character search pattern `c`:
every occurrence of `c` is replaced by `r`. -/
def replaceChar (c : Char) (r : List Char) : List Char → List Char
  | [] => []
  | x :: xs => if x = c then r ++ replaceChar c r xs else x :: replaceChar c r xs

/-- `re.sub('  +', ' ', text)`: every run of two or more spaces becomes a
single space; isolated spaces are untouched. -/
def collapseSpaces : List Char → List Char
  | [] => []
  | [c] => [c]
  | c1 :: c2 :: rest =>
    if c1 = ' ' ∧ c2 = ' ' then collapseSpaces (c2 :: rest)
    else c1 :: collapseSpaces (c2 :: rest)

/-- Python `str.strip()`: drop leading and trailing whitespace. -/
def pyStrip (l : List Char) : List Char :=
  ((l.dropWhile isPySpace).reverse.dropWhile isPySpace).reverse

/-- `fix_text` from the source: collapse multi-space runs, strip, then escape
`&`, `>`, `<` (in that order). -/
def fix_text (ing_text : List Char) : List Char :=
  let text := pyStrip (collapseSpaces ing_text)
  replaceChar '<' ("&lt;".data)
    (replaceChar '>' ("&gt;".data)
      (replaceChar '&' ("&amp;".data) text))

/-- Match `([0-9]{2}):([0-9]{2})` at the head of the list, returning the
concatenated groups. -/
def matchHM : List Char → Option (List Char)
  | h1 :: h2 :: ':' :: m1 :: m2 :: _ =>
    if h1.isDigit && h2.isDigit && m1.isDigit && m2.isDigit then
      some [h1, h2, m1, m2]
    else none
  | _ => none

/-- Match `\d{2} ([0-9]{2}):([0-9]{2})` at the head of the list. -/
def matchTail : List Char → Option (List Char)
  | y1 :: y2 :: ' ' :: rest =>
    if y1.isDigit && y2.isDigit then matchHM rest else none
  | _ => none

/-- Match `(?:20)?\d{2} ([0-9]{2}):([0-9]{2})` at the head of the list,
with the regex engine's greedy preference for consuming a literal `20`. -/
def matchYearTime (l : List Char) : Option (List Char) :=
  match l with
  | '2' :: '0' :: rest => (matchTail rest).orElse (fun _ => matchTail l)
  | _ => matchTail l

/-- Match the whole pattern
`\d{2}-\d{2}-(?:20)?\d{2} ([0-9]{2}):([0-9]{2})` at the head of the list. -/
def matchAt (l : List Char) : Option (List Char) :=
  match l with
  | d1 :: d2 :: '-' :: m1 :: m2 :: '-' :: rest =>
    if d1.isDigit && d2.isDigit && m1.isDigit && m2.isDigit then
      matchYearTime rest
    else none
  | _ => none

/-- `re.search`: try the pattern at each successive start position, leftmost
match wins. -/
def searchDT : List Char → Option (List Char)
  | [] => none
  | c :: rest => (matchAt (c :: rest)).orElse (fun _ => searchDT rest)

/-- `extract_time` from the source: the concatenated hour and minute groups of
the first date-time pattern occurrence in the memo, else the empty string. -/
def extract_time (memo : List Char) : List Char :=
  match searchDT memo with
  | some hm => hm
  | none => []

/-- `get_transaction_amount` from the source: replace `,` by `.`, and prefix
`-` exactly when the debit/credit flag is `Af`. -/
def get_transaction_amount (amount af_bij : List Char) : List Char :=
  let amount' := replaceChar ',' ['.'] amount
  let sign := if af_bij = ("Af".data) then ['-'] else []
  sign ++ amount'

/-- The `af_bij_map` dict from the source; a missing key raises `KeyError`
in Python, modelled by `none`. -/
def af_bij_map (af_bij : List Char) : Option (List Char) :=
  if af_bij = ("Af".data) then some ("DEBIT".data)
  else if af_bij = ("Bij".data) then some ("CREDIT".data)
  else none

/-- The `trn_codes` dict from the source (`dict.get`, so total via `Option`). -/
def trn_codes (code : List Char) : Option (List Char) :=
  if code = ("GT".data) then some ("PAYMENT".data)
  else if code = ("BA".data) then some ("POS".data)
  else if code = ("GM".data) then some ("ATM".data)
  else if code = ("IC".data) then some ("DIRECTDEBIT".data)
  else if code = ("ST".data) then some ("DIRECTDEP".data)
  else none

/-- `ing_code_to_trntype` from the source.  For the flagged codes the flag is
looked up in `af_bij_map` (fallible); otherwise `trn_codes.get(code, 'OTHER')`. -/
def ing_code_to_trntype (ing_code af_bij : List Char) : Option (List Char) :=
  if ing_code = ("DV".data) ∨ ing_code = ("OV".data) ∨ ing_code = ("VZ".data) then
    af_bij_map af_bij
  else
    some ((trn_codes ing_code).getD ("OTHER".data))

/-- `trnamt.replace("-", "").replace(".", "")` from `make_unique_id`. -/
def stripAmount (trnamt : List Char) : List Char :=
  replaceChar '.' [] (replaceChar '-' [] trnamt)

/-- The candidate ID tried at loop counter `k`: the bare fingerprint for
`k = 0`, else the fingerprint with the decimal suffix `str(k)`. -/
def uidCandidate (fitid : List Char) (k : Nat) : List Char :=
  if k = 0 then fitid else fitid ++ (Nat.repr k).data

/-- The `while unique_id in idslist` loop of `make_unique_id`, with explicit
fuel (the Python loop terminates because `idslist` is finite). -/
def uidLoop (fitid : List Char) (ids : List (List Char)) : Nat → Nat → List Char
  | 0, idcount => uidCandidate fitid idcount
  | fuel + 1, idcount =>
    if uidCandidate fitid idcount ∈ ids then
      uidLoop fitid ids fuel (idcount + 1)
    else uidCandidate fitid idcount

/-- `make_unique_id` from the source: fingerprint = counter-account ++ date ++
time ++ amount with `-` and `.` removed; then search for the first unused
candidate.  `ids.length + 1` rounds of fuel always suffice. -/
def make_unique_id (accountto dtposted time trnamt : List Char)
    (ids : List (List Char)) : List Char :=
  let fitid := accountto ++ dtposted ++ time ++ stripAmount trnamt
  uidLoop fitid ids (ids.length + 1) 0

/-- One raw CSV row, with the ING column names as fields. -/
structure Row where
  Rekening : List Char
  Datum : List Char
  Code : List Char
  AfBij : List Char
  Bedrag : List Char
  Naam : List Char
  Tegenrekening : List Char
  Mededelingen : List Char
deriving DecidableEq

/-- One normalized transaction, mirroring the dict appended by
`read_csv_file`. -/
structure Txn where
  account : List Char
  trntype : List Char
  dtposted : List Char
  trnamt : List Char
  fitid : List Char
  name : List Char
  accountto : List Char
  memo : List Char
deriving DecidableEq

/-- The per-row body of the `read_csv_file` loop.  `none` models the Python
run aborting on a `KeyError` from `ing_code_to_trntype`. -/
def process_row (row : Row) (ids : List (List Char)) : Option Txn :=
  match ing_code_to_trntype row.Code row.AfBij with
  | none => none
  | some trntype =>
    let account := replaceChar ' ' [] row.Rekening
    let dtposted := row.Datum
    let trnamt := get_transaction_amount row.Bedrag row.AfBij
    let name := fix_text row.Naam
    let accountto := row.Tegenrekening
    let memo := fix_text row.Mededelingen
    let time := extract_time memo
    let unique_id := make_unique_id accountto dtposted time trnamt ids
    some ⟨account, trntype, dtposted, trnamt, unique_id, name, accountto, memo⟩

/-- The `read_csv_file` loop over all rows, threading the used-ID set: each
chosen ID is added to the set before the next row is processed. -/
def read_rows : List Row → List (List Char) → Option (List Txn)
  | [], _ => some []
  | row :: rest, ids =>
    match process_row row ids with
    | none => none
    | some t =>
      match read_rows rest (t.fitid :: ids) with
      | none => none
      | some ts => some (t :: ts)

/-- `read_csv_file`: run the loop from an empty used-ID set and attach each
transaction's group key (`dtposted[:6]` when splitting by month, else `''`). -/
def read_csv_file (rows : List Row) (split_by_month : Bool) :
    Option (List (List Char × Txn)) :=
  (read_rows rows []).map
    (List.map (fun t => (if split_by_month then t.dtposted.take 6 else [], t)))

/-- `find_accounts` from the source: the set of distinct account values,
modelled as the deduplicated list. -/
def find_accounts (ts : List Txn) : List (List Char) :=
  (ts.map (fun t => t.account)).dedup

/-- Python `int(s)` on a nonempty all-digit string; `none` models the
`ValueError` otherwise. -/
def strToNat? (l : List Char) : Option Nat :=
  if (!l.isEmpty) && l.all Char.isDigit then
    some (l.foldl (fun a c => 10 * a + (c.toNat - 48)) 0)
  else none

/-- `find_date_range` from the source: numeric min and max of the posted
dates; `none` models `int()` failing or `min`/`max` on an empty sequence. -/
def find_date_range (ts : List Txn) : Option (Nat × Nat) := do
  let dates ← ts.mapM (fun t => strToNat? t.dtposted)
  let mi ← dates.min?
  let ma ← dates.max?
  pure (mi, ma)

/-- One rendered `STMTRS` statement block (structured form of the template
output of `write_ofx_file`). -/
structure Stmt where
  account : List Char
  dtstart : Nat
  dtend : Nat
  txns : List Txn
deriving DecidableEq

/-- `write_ofx_file` from the source, at the structural level: one statement
block per distinct account, each holding that account's transactions in their
original order, bounded by the group-wide min/max posted date. -/
def write_ofx_file (ts : List Txn) : Option (List Stmt) := do
  let accounts := find_accounts ts
  let (mindate, maxdate) ← find_date_range ts
  pure (accounts.map (fun a =>
    ⟨a, mindate, maxdate, ts.filter (fun t => decide (t.account = a))⟩))

/-! ### Decoding `Nat.repr`: the decimal suffixes `str(1)`, `str(2)`, … are
pairwise distinct and nonempty. -/

/-- Decimal accumulator step decoding a digit character. -/
def decValF (a : Nat) (c : Char) : Nat := 10 * a + (c.toNat - 48)

lemma digitChar_decVal (k : Nat) (h : k < 10) : (Nat.digitChar k).toNat - 48 = k := by
  interval_cases k <;> decide

lemma toDigitsCore_foldl : ∀ (fuel n : Nat) (ds : List Char), n < 10 ^ fuel →
    (Nat.toDigitsCore 10 fuel n ds).foldl decValF 0 = ds.foldl decValF n := by
  intro fuel
  induction fuel with
  | zero =>
    intro n ds h
    interval_cases n
    rfl
  | succ fuel ih =>
    intro n ds h
    rw [Nat.toDigitsCore]
    by_cases h0 : n / 10 = 0
    · simp only [h0, if_pos]
      have hn : n < 10 := by omega
      simp only [List.foldl_cons, decValF, Nat.mul_zero, Nat.zero_add]
      rw [digitChar_decVal (n % 10) (Nat.mod_lt n (by norm_num))]
      congr 1
      omega
    · simp only [h0, if_neg, if_false]
      have hb : n / 10 < 10 ^ fuel := by
        rw [Nat.div_lt_iff_lt_mul (by norm_num)]
        calc n < 10 ^ (fuel + 1) := h
          _ = 10 ^ fuel * 10 := by ring
      rw [ih (n / 10) _ hb]
      simp only [List.foldl_cons, decValF]
      rw [digitChar_decVal (n % 10) (Nat.mod_lt n (by omega))]
      congr 1
      omega

lemma repr_data_val (n : Nat) : (Nat.repr n).data.foldl decValF 0 = n := by
  have h : (Nat.repr n).data = Nat.toDigitsCore 10 (n + 1) n [] := rfl
  have hp : n < 10 ^ (n + 1) :=
    lt_of_lt_of_le (Nat.lt_pow_self (by norm_num) n)
      (Nat.pow_le_pow_right (by norm_num) (Nat.le_succ n))
  rw [h, toDigitsCore_foldl (n + 1) n [] hp]
  rfl

lemma repr_data_inj {m n : Nat} (h : (Nat.repr m).data = (Nat.repr n).data) : m = n := by
  have hm := repr_data_val m
  rw [h, repr_data_val n] at hm
  omega

lemma toDigitsCore_length_le : ∀ (fuel n : Nat) (ds : List Char),
    ds.length ≤ (Nat.toDigitsCore 10 fuel n ds).length := by
  intro fuel
  induction fuel with
  | zero => intro n ds; exact le_refl _
  | succ fuel ih =>
    intro n ds
    rw [Nat.toDigitsCore]
    by_cases h0 : n / 10 = 0
    · simp only [h0, if_pos]
      exact Nat.le_succ _
    · simp only [h0, if_neg, if_false]
      exact le_trans (by simp) (ih (n / 10) _)

lemma repr_data_ne_nil (n : Nat) : (Nat.repr n).data ≠ [] := by
  have h : (Nat.repr n).data = Nat.toDigitsCore 10 (n + 1) n [] := rfl
  intro he
  have hl : (1 : Nat) ≤ (Nat.toDigitsCore 10 (n + 1) n []).length := by
    rw [Nat.toDigitsCore]
    by_cases h0 : n / 10 = 0
    · simp [h0]
    · simp only [h0, if_neg, if_false]
      exact le_trans (by simp) (toDigitsCore_length_le n (n / 10) _)
  rw [h] at he
  rw [he] at hl
  simp at hl

/-! ### Correctness of the candidate-ID search loop. -/

lemma uidCandidate_inj (fitid : List Char) {j k : Nat}
    (h : uidCandidate fitid j = uidCandidate fitid k) : j = k := by
  unfold uidCandidate at h
  by_cases hj : j = 0 <;> by_cases hk : k = 0
  · omega
  · rw [if_pos hj, if_neg hk] at h
    exact absurd (List.self_eq_append_right.mp h) (repr_data_ne_nil k)
  · rw [if_neg hj, if_pos hk] at h
    exact absurd (List.self_eq_append_right.mp h.symm) (repr_data_ne_nil j)
  · rw [if_neg hj, if_neg hk] at h
    exact repr_data_inj (List.append_cancel_left h)

lemma uidLoop_find (fitid : List Char) (ids : List (List Char)) :
    ∀ fuel c, (∃ k, c ≤ k ∧ k < c + fuel ∧ uidCandidate fitid k ∉ ids) →
    ∃ k, c ≤ k ∧ uidLoop fitid ids fuel c = uidCandidate fitid k ∧
      uidCandidate fitid k ∉ ids ∧ ∀ j, c ≤ j → j < k → uidCandidate fitid j ∈ ids := by
  intro fuel
  induction fuel with
  | zero =>
    rintro c ⟨k, hk1, hk2, -⟩
    omega
  | succ fuel ih =>
    rintro c ⟨k, hck, hkf, hk⟩
    by_cases hc : uidCandidate fitid c ∈ ids
    · have hne : k ≠ c := fun he => hk (he ▸ hc)
      obtain ⟨k', h1, h2, h3, h4⟩ := ih (c + 1) ⟨k, by omega, by omega, hk⟩
      refine ⟨k', by omega, ?_, h3, ?_⟩
      · rw [uidLoop, if_pos hc]
        exact h2
      · intro j hj1 hj2
        by_cases hj : j = c
        · exact hj ▸ hc
        · exact h4 j (by omega) hj2
    · refine ⟨c, le_refl c, ?_, hc, ?_⟩
      · rw [uidLoop, if_neg hc]
      · intro j hj1 hj2
        omega

lemma exists_unused_candidate (fitid : List Char) (ids : List (List Char)) :
    ∃ k, k < ids.length + 1 ∧ uidCandidate fitid k ∉ ids := by
  by_contra h
  push_neg at h
  have hnodup : ((List.range (ids.length + 1)).map (uidCandidate fitid)).Nodup :=
    (List.nodup_range _).map (fun a b hab => uidCandidate_inj fitid hab)
  have hsub : ((List.range (ids.length + 1)).map (uidCandidate fitid)) ⊆ ids := by
    intro x hx
    obtain ⟨k, hk, rfl⟩ := List.mem_map.mp hx
    exact h _ (List.mem_range.mp hk)
  have h1 : ((List.range (ids.length + 1)).map (uidCandidate fitid)).toFinset.card
      = ids.length + 1 := by
    rw [List.toFinset_card_of_nodup hnodup, List.length_map, List.length_range]
  have h2 : ((List.range (ids.length + 1)).map (uidCandidate fitid)).toFinset
      ⊆ ids.toFinset := fun x hx =>
    List.mem_toFinset.mpr (hsub (List.mem_toFinset.mp hx))
  have h3 := Finset.card_le_card h2
  have h4 := List.toFinset_card_le ids
  omega

/-- Full characterization of `make_unique_id`: the result is unused; it is the
bare fingerprint when that is unused, and otherwise the fingerprint with the
smallest positive decimal suffix that is unused. -/
lemma make_unique_id_spec (accountto dtposted time trnamt : List Char)
    (ids : List (List Char)) :
    make_unique_id accountto dtposted time trnamt ids ∉ ids ∧
    (accountto ++ dtposted ++ time ++ stripAmount trnamt ∉ ids →
      make_unique_id accountto dtposted time trnamt ids
        = accountto ++ dtposted ++ time ++ stripAmount trnamt) ∧
    (accountto ++ dtposted ++ time ++ stripAmount trnamt ∈ ids →
      ∃ k, 1 ≤ k ∧
        make_unique_id accountto dtposted time trnamt ids
          = (accountto ++ dtposted ++ time ++ stripAmount trnamt) ++ (Nat.repr k).data ∧
        ∀ j, 1 ≤ j → j < k →
          (accountto ++ dtposted ++ time ++ stripAmount trnamt) ++ (Nat.repr j).data ∈ ids) := by
  set fitid := accountto ++ dtposted ++ time ++ stripAmount trnamt with hfit
  obtain ⟨k0, hk0, hk0n⟩ := exists_unused_candidate fitid ids
  obtain ⟨k, -, heq, hnot, hmin⟩ :=
    uidLoop_find fitid ids (ids.length + 1) 0 ⟨k0, Nat.zero_le _, by omega, hk0n⟩
  have hmu : make_unique_id accountto dtposted time trnamt ids = uidCandidate fitid k := by
    rw [make_unique_id]
    exact heq
  refine ⟨hmu ▸ hnot, ?_, ?_⟩
  · intro hf
    have hk0' : k = 0 := by
      by_contra hkne
      exact hf (by simpa [uidCandidate] using hmin 0 (Nat.zero_le _) (by omega))
    rw [hmu, hk0', uidCandidate, if_pos rfl]
  · intro hf
    have hkne : k ≠ 0 := by
      intro hk0'
      rw [hk0'] at hnot
      exact hnot (by simpa [uidCandidate] using hf)
    refine ⟨k, by omega, ?_, ?_⟩
    · rw [hmu, uidCandidate, if_neg hkne]
    · intro j hj1 hj2
      have := hmin j (Nat.zero_le _) hj2
      rwa [uidCandidate, if_neg (by omega)] at this

/-- Unfolding of `process_row` into its per-field equations. -/
lemma process_row_fields (row : Row) (ids : List (List Char)) (t : Txn)
    (h : process_row row ids = some t) :
    t.account = replaceChar ' ' [] row.Rekening ∧
    ing_code_to_trntype row.Code row.AfBij = some t.trntype ∧
    t.dtposted = row.Datum ∧
    t.trnamt = get_transaction_amount row.Bedrag row.AfBij ∧
    t.name = fix_text row.Naam ∧
    t.accountto = row.Tegenrekening ∧
    t.memo = fix_text row.Mededelingen ∧
    t.fitid = make_unique_id row.Tegenrekening row.Datum
        (extract_time (fix_text row.Mededelingen))
        (get_transaction_amount row.Bedrag row.AfBij) ids := by
  unfold process_row at h
  cases hc : ing_code_to_trntype row.Code row.AfBij with
  | none => rw [hc] at h; exact absurd h (by simp)
  | some tr =>
    rw [hc] at h
    simp only [Option.some.injEq] at h
    subst h
    simp [hc]

/-- Every ID chosen by the loop is fresh: freshness w.r.t. the threaded
used-ID set, and pairwise distinctness of the batch. -/
lemma read_rows_ids : ∀ (rows : List Row) (ids : List (List Char)) (ts : List Txn),
    read_rows rows ids = some ts →
    (ts.map (fun t => t.fitid)).Nodup ∧ ∀ t ∈ ts, t.fitid ∉ ids := by
  intro rows
  induction rows with
  | nil =>
    intro ids ts h
    simp only [read_rows, Option.some.injEq] at h
    subst h
    simp
  | cons row rest ih =>
    intro ids ts h
    unfold read_rows at h
    cases hp : process_row row ids with
    | none => rw [hp] at h; exact absurd h (by simp)
    | some t =>
      rw [hp] at h
      dsimp only at h
      cases hr : read_rows rest (t.fitid :: ids) with
      | none => rw [hr] at h; exact absurd h (by simp)
      | some ts' =>
        rw [hr] at h
        simp only [Option.some.injEq] at h
        subst h
        obtain ⟨hnd, hni⟩ := ih (t.fitid :: ids) ts' hr
        have hfresh : t.fitid ∉ ids := by
          obtain ⟨-, -, -, -, -, -, -, hfit⟩ := process_row_fields row ids t hp
          rw [hfit]
          exact (make_unique_id_spec _ _ _ _ _).1
        refine ⟨?_, ?_⟩
        · simp only [List.map_cons, List.nodup_cons]
          exact ⟨fun hmem => by
            obtain ⟨u, hu, he⟩ := List.mem_map.mp hmem
            exact (hni u hu) (he ▸ List.mem_cons_self _ _), hnd⟩
        · intro u hu
          rcases List.mem_cons.mp hu with h1 | h1
          · exact h1 ▸ hfresh
          · exact fun hmem => (hni u h1) (List.mem_cons_of_mem _ hmem)

/-- C1: within one run the assigned transaction IDs are pairwise distinct;
the ID assigned for a row is the base fingerprint (counter-account ++ posted
date ++ extracted time ++ amount stripped of `-` and `.`) when unused, else
the base fingerprint with the smallest positive integer suffix not yet used;
each chosen ID enters the used-ID set before the next row is processed. -/
theorem run_ids_pairwise_distinct (rows : List Row) (ts : List Txn)
    (h : read_rows rows [] = some ts) :
    (ts.map (fun t => t.fitid)).Nodup ∧
    (∀ accountto dtposted time trnamt ids,
      (accountto ++ dtposted ++ time ++ stripAmount trnamt ∉ ids →
        make_unique_id accountto dtposted time trnamt ids
          = accountto ++ dtposted ++ time ++ stripAmount trnamt) ∧
      (accountto ++ dtposted ++ time ++ stripAmount trnamt ∈ ids →
        ∃ k, 1 ≤ k ∧
          make_unique_id accountto dtposted time trnamt ids
            = (accountto ++ dtposted ++ time ++ stripAmount trnamt) ++ (Nat.repr k).data ∧
          make_unique_id accountto dtposted time trnamt ids ∉ ids ∧
          ∀ j, 1 ≤ j → j < k →
            (accountto ++ dtposted ++ time ++ stripAmount trnamt) ++ (Nat.repr j).data ∈ ids)) ∧
    (∀ row rest ids t, process_row row ids = some t →
      read_rows (row :: rest) ids
        = (read_rows rest (t.fitid :: ids)).map (fun more => t :: more)) := by
  refine ⟨(read_rows_ids rows [] ts h).1, ?_, ?_⟩
  · intro accountto dtposted time trnamt ids
    obtain ⟨hfresh, hbase, hsuff⟩ := make_unique_id_spec accountto dtposted time trnamt ids
    refine ⟨hbase, fun hf => ?_⟩
    obtain ⟨k, hk1, hk2, hk3⟩ := hsuff hf
    exact ⟨k, hk1, hk2, hfresh, hk3⟩
  · intro row rest ids t hp
    cases hrr : read_rows rest (t.fitid :: ids) with
    | none =>
      unfold read_rows
      rw [hp]
      dsimp only
      rw [hrr]
      rfl
    | some ts' =>
      unfold read_rows
      rw [hp]
      dsimp only
      rw [hrr]
      rfl

/-- Concrete input row used by the C1 witness. -/
def wRow : Row :=
  ⟨("NL1 X".data), ("20170101".data), ("GT".data), ("Af".data), ("1,00".data),
   ("shop".data), ("NL2".data), ("x 05-03-17  14:22 y".data)⟩

/-- First transaction produced from `wRow` (base fingerprint as ID). -/
def wTxn1 : Txn :=
  ⟨("NL1X".data), ("PAYMENT".data), ("20170101".data), ("-1.00".data),
   ("NL2201701011422100".data), ("shop".data), ("NL2".data),
   ("x 05-03-17 14:22 y".data)⟩

/-- Second transaction produced from `wRow` (suffix `1` disambiguates). -/
def wTxn2 : Txn :=
  ⟨("NL1X".data), ("PAYMENT".data), ("20170101".data), ("-1.00".data),
   ("NL22017010114221001".data), ("shop".data), ("NL2".data),
   ("x 05-03-17 14:22 y".data)⟩

theorem run_ids_pairwise_distinct_witness :
    read_rows [wRow, wRow] [] = some [wTxn1, wTxn2] ∧
    (([wTxn1, wTxn2].map (fun t => t.fitid)).Nodup) :=
  ⟨by decide, (run_ids_pairwise_distinct [wRow, wRow] [wTxn1, wTxn2] (by decide)).1⟩

/-! ### Classifier claims. -/

/-- C2 counterexample: a flagged code together with an unknown debit/credit
flag is NOT classified — the `af_bij_map` lookup fails (Python `KeyError`). -/
theorem trntype_unknown_flag_fails :
    ing_code_to_trntype ("DV".data) ("Onbekend".data) = none := by decide

/-- C2 (amended): classification succeeds for every input whose operation code
is not one of the flagged codes `DV`, `OV`, `VZ`, and for every input whose
debit/credit flag is `Af` or `Bij`; only a flagged code with an unknown flag
fails. -/
theorem trntype_total_unless_flagged_unknown (code af_bij : List Char)
    (h : (¬(code = ("DV".data) ∨ code = ("OV".data) ∨ code = ("VZ".data)))
      ∨ af_bij = ("Af".data) ∨ af_bij = ("Bij".data)) :
    ∃ t, ing_code_to_trntype code af_bij = some t := by
  unfold ing_code_to_trntype
  by_cases hc : code = ("DV".data) ∨ code = ("OV".data) ∨ code = ("VZ".data)
  · rw [if_pos hc]
    unfold af_bij_map
    rcases h with h | rfl | rfl
    · exact absurd hc h
    · exact ⟨_, by rw [if_pos rfl]⟩
    · exact ⟨_, by rw [if_neg (by decide), if_pos rfl]⟩
  · rw [if_neg hc]
    exact ⟨_, rfl⟩

theorem trntype_total_unless_flagged_unknown_witness :
    ((¬(("ZZ".data : List Char) = ("DV".data) ∨ ("ZZ".data : List Char) = ("OV".data)
        ∨ ("ZZ".data : List Char) = ("VZ".data)))
      ∨ ("QQ".data : List Char) = ("Af".data) ∨ ("QQ".data : List Char) = ("Bij".data)) ∧
    ∃ t, ing_code_to_trntype ("ZZ".data) ("QQ".data) = some t :=
  ⟨by decide, trntype_total_unless_flagged_unknown ("ZZ".data) ("QQ".data) (by decide)⟩

/-- C7: with a valid debit/credit flag, the flagged codes `DV`, `OV`, `VZ` map
to `DEBIT`/`CREDIT` according to the flag alone; `GT`, `BA`, `GM`, `IC`, `ST`
map through the fixed table; any other code maps to `OTHER`. -/
theorem classifier_cases (code af_bij : List Char)
    (h : af_bij = ("Af".data) ∨ af_bij = ("Bij".data)) :
    ((code = ("DV".data) ∨ code = ("OV".data) ∨ code = ("VZ".data)) →
      ing_code_to_trntype code af_bij
        = some (if af_bij = ("Af".data) then ("DEBIT".data) else ("CREDIT".data))) ∧
    ing_code_to_trntype ("GT".data) af_bij = some ("PAYMENT".data) ∧
    ing_code_to_trntype ("BA".data) af_bij = some ("POS".data) ∧
    ing_code_to_trntype ("GM".data) af_bij = some ("ATM".data) ∧
    ing_code_to_trntype ("IC".data) af_bij = some ("DIRECTDEBIT".data) ∧
    ing_code_to_trntype ("ST".data) af_bij = some ("DIRECTDEP".data) ∧
    (code ∉ [("DV".data), ("OV".data), ("VZ".data), ("GT".data), ("BA".data),
        ("GM".data), ("IC".data), ("ST".data)] →
      ing_code_to_trntype code af_bij = some ("OTHER".data)) := by
  refine ⟨?_, ?_, ?_, ?_, ?_, ?_, ?_⟩
  · intro hc
    unfold ing_code_to_trntype af_bij_map
    rw [if_pos hc]
    rcases h with rfl | rfl
    · rw [if_pos rfl, if_pos rfl]
    · rw [if_neg (by decide), if_pos rfl, if_neg (by decide)]
  · unfold ing_code_to_trntype
    rw [if_neg (by decide)]
    decide
  · unfold ing_code_to_trntype
    rw [if_neg (by decide)]
    decide
  · unfold ing_code_to_trntype
    rw [if_neg (by decide)]
    decide
  · unfold ing_code_to_trntype
    rw [if_neg (by decide)]
    decide
  · unfold ing_code_to_trntype
    rw [if_neg (by decide)]
    decide
  · intro hne
    simp only [List.mem_cons, List.mem_singleton, not_or] at hne
    obtain ⟨h1, h2, h3, h4, h5, h6, h7, h8, -⟩ := hne
    unfold ing_code_to_trntype trn_codes
    rw [if_neg (by tauto)]
    rw [if_neg h4, if_neg h5, if_neg h6, if_neg h7, if_neg h8]
    rfl

theorem classifier_cases_witness :
    (("Af".data : List Char) = ("Af".data) ∨ ("Af".data : List Char) = ("Bij".data)) ∧
    ing_code_to_trntype ("GT".data) ("Af".data) = some ("PAYMENT".data) ∧
    ing_code_to_trntype ("ZZ".data) ("Af".data) = some ("OTHER".data) ∧
    ing_code_to_trntype ("DV".data) ("Af".data) = some ("DEBIT".data) :=
  ⟨Or.inl rfl,
   (classifier_cases ("ZZ".data) ("Af".data) (Or.inl rfl)).2.1,
   (classifier_cases ("ZZ".data) ("Af".data) (Or.inl rfl)).2.2.2.2.2.2 (by decide),
   by
    have h := (classifier_cases ("DV".data) ("Af".data) (Or.inl rfl)).1 (Or.inl rfl)
    rwa [if_pos rfl] at h⟩

/-! ### Amount normalization (C4). -/

/-- C4 counterexample: with a credit flag and a raw amount that itself starts
with `-`, the result starts with `-` although the flag does not denote a
debit, refuting the unrestricted biconditional. -/
theorem amount_sign_counterexample :
    (get_transaction_amount ("-5,00".data) ("Bij".data)).head? = some '-' ∧
    ("Bij".data : List Char) ≠ ("Af".data) := by decide

lemma replaceChar_comma_eq_map (l : List Char) :
    replaceChar ',' ['.'] l = l.map (fun c => if c = ',' then '.' else c) := by
  induction l with
  | nil => rfl
  | cons c rest ih =>
    by_cases hc : c = ','
    · simp [replaceChar, hc, ih]
    · simp [replaceChar, hc, ih]

lemma filter_digit_map_comma (l : List Char) :
    (l.map (fun c => if c = ',' then '.' else c)).filter Char.isDigit
      = l.filter Char.isDigit := by
  induction l with
  | nil => rfl
  | cons c rest ih =>
    by_cases hc : c = ','
    · subst hc
      simp [List.filter_cons, ih, Char.isDigit]
    · simp only [List.map_cons, List.filter_cons, if_neg hc, ih]

/-- C4 (amended): for a raw amount string that does not itself begin with
`-`, the normalized amount is the comma-to-dot image of the raw amount,
prefixed with `-` exactly when the flag is `Af`; its leading character is `-`
iff the flag is `Af`; and the digit characters are preserved unchanged. -/
theorem amount_normalization (amount af_bij : List Char)
    (h : amount.head? ≠ some '-') :
    get_transaction_amount amount af_bij
      = (if af_bij = ("Af".data) then ['-'] else [])
          ++ amount.map (fun c => if c = ',' then '.' else c) ∧
    ((get_transaction_amount amount af_bij).head? = some '-'
      ↔ af_bij = ("Af".data)) ∧
    (get_transaction_amount amount af_bij).filter Char.isDigit
      = amount.filter Char.isDigit := by
  unfold get_transaction_amount
  rw [replaceChar_comma_eq_map]
  refine ⟨rfl, ?_, ?_⟩
  · by_cases ha : af_bij = ("Af".data)
    · rw [if_pos ha]
      simp [ha]
    · rw [if_neg ha]
      simp only [List.nil_append, List.head?_map]
      constructor
      · intro hm
        cases hl : amount.head? with
        | none => rw [hl] at hm; exact absurd hm (by simp)
        | some c =>
          rw [hl] at hm
          simp only [Option.map_some', Option.some.injEq] at hm
          by_cases hc : c = ','
          · rw [if_pos hc] at hm
            exact absurd hm (by decide)
          · rw [if_neg hc] at hm
            exact absurd (hm ▸ hl) h
      · intro hm
        exact absurd hm ha
  · by_cases ha : af_bij = ("Af".data)
    · rw [if_pos ha]
      rw [List.filter_append]
      rw [filter_digit_map_comma]
      rfl
    · rw [if_neg ha, List.nil_append, filter_digit_map_comma]

theorem amount_normalization_witness :
    (("12,34".data : List Char).head? ≠ some '-') ∧
    (get_transaction_amount ("12,34".data) ("Af".data)
      = (if ("Af".data : List Char) = ("Af".data) then ['-'] else [])
          ++ ("12,34".data : List Char).map (fun c => if c = ',' then '.' else c) ∧
    ((get_transaction_amount ("12,34".data) ("Af".data)).head? = some '-'
      ↔ ("Af".data : List Char) = ("Af".data)) ∧
    (get_transaction_amount ("12,34".data) ("Af".data)).filter Char.isDigit
      = ("12,34".data : List Char).filter Char.isDigit) :=
  ⟨by decide, amount_normalization ("12,34".data) ("Af".data) (by decide)⟩

/-! ### Sanitization order (C6). -/

/-- C6 counterexample: sanitizing `<  name>` yields `&lt; name&gt;` — the run
of spaces collapses to ONE space, not zero — so the claimed output
`&lt;name&gt;` is wrong. -/
theorem sanitize_example_counterexample :
    fix_text ("<  name>".data) ≠ ("&lt;name&gt;".data) ∧
    fix_text ("<  name>".data) = ("&lt; name&gt;".data) := by decide

/-- C6 (amended): sanitization collapses runs of two or more spaces, then
trims, and only then escapes `&`, `>`, `<` in that fixed order; consequently
`<  name>` becomes `&lt; name&gt;` (single interior space kept) and never a
double-escaped form. -/
theorem sanitize_pipeline (s : List Char) :
    fix_text s = replaceChar '<' ("&lt;".data)
      (replaceChar '>' ("&gt;".data)
        (replaceChar '&' ("&amp;".data) (pyStrip (collapseSpaces s)))) ∧
    fix_text ("<  name>".data) = ("&lt; name&gt;".data) ∧
    fix_text ("<  name>".data) ≠ ("&amp;lt;name&amp;gt;".data) ∧
    fix_text ("<  name>".data) ≠ ("&amp;lt; name&amp;gt;".data) :=
  ⟨rfl, by decide, by decide, by decide⟩

/-! ### Idempotence of sanitization on entity-free text (C3). -/

/-- C3 counterexample: sanitization is NOT idempotent on arbitrary input —
an `&` is escaped to `&amp;` whose own `&` is escaped again on the second
application. -/
theorem fix_text_not_idempotent :
    fix_text (fix_text ("&".data)) ≠ fix_text ("&".data) ∧
    fix_text ("&".data) = ("&amp;".data) ∧
    fix_text (fix_text ("&".data)) = ("&amp;amp;".data) := by decide

/-- No two adjacent spaces anywhere in the list. -/
def pairFree (l : List Char) : Prop := ¬ ∃ a b, l = a ++ ' ' :: ' ' :: b

lemma pairFree_tail {c : Char} {l : List Char} (h : pairFree (c :: l)) :
    pairFree l := by
  rintro ⟨a, b, rfl⟩
  exact h ⟨c :: a, b, rfl⟩

lemma pairFree_cons {c : Char} {l : List Char} (h : pairFree l)
    (hh : ¬(c = ' ' ∧ l.head? = some ' ')) : pairFree (c :: l) := by
  rintro ⟨a, b, he⟩
  cases a with
  | nil =>
    simp only [List.nil_append, List.cons.injEq] at he
    exact hh ⟨he.1, by rw [he.2]; rfl⟩
  | cons a0 a' =>
    simp only [List.cons_append, List.cons.injEq] at he
    exact h ⟨a', b, he.2⟩

lemma pairFree_dropWhile (p : Char → Bool) {l : List Char} (h : pairFree l) :
    pairFree (l.dropWhile p) := by
  induction l with
  | nil => simpa using h
  | cons c rest ih =>
    rw [List.dropWhile_cons]
    by_cases hp : p c
    · rw [if_pos hp]
      exact ih (pairFree_tail h)
    · rw [if_neg hp]
      exact h

lemma pairFree_reverse {l : List Char} (h : pairFree l) : pairFree l.reverse := by
  rintro ⟨a, b, he⟩
  apply h
  refine ⟨b.reverse, a.reverse, ?_⟩
  have h2 := congrArg List.reverse he
  rw [List.reverse_reverse] at h2
  rw [h2]
  simp

lemma collapseSpaces_two (c1 c2 : Char) (rest : List Char) :
    collapseSpaces (c1 :: c2 :: rest)
      = if c1 = ' ' ∧ c2 = ' ' then collapseSpaces (c2 :: rest)
        else c1 :: collapseSpaces (c2 :: rest) := by
  rfl

lemma head?_collapseSpaces : ∀ l : List Char, (collapseSpaces l).head? = l.head? := by
  intro l
  induction l with
  | nil => rfl
  | cons c1 rest ih =>
    cases rest with
    | nil => rfl
    | cons c2 r =>
      rw [collapseSpaces_two]
      by_cases hb : c1 = ' ' ∧ c2 = ' '
      · rw [if_pos hb, ih]
        simp [hb.1, hb.2]
      · rw [if_neg hb]
        rfl

lemma pairFree_collapseSpaces : ∀ l : List Char, pairFree (collapseSpaces l) := by
  intro l
  induction l with
  | nil =>
    rintro ⟨a, b, he⟩
    have hlen := congrArg List.length he
    simp only [collapseSpaces, List.length_nil, List.length_append,
      List.length_cons] at hlen
    omega
  | cons c1 rest ih =>
    cases rest with
    | nil =>
      rintro ⟨a, b, he⟩
      have hlen := congrArg List.length he
      simp only [collapseSpaces, List.length_cons, List.length_nil,
        List.length_append] at hlen
      omega
    | cons c2 r =>
      rw [collapseSpaces_two]
      by_cases hb : c1 = ' ' ∧ c2 = ' '
      · rw [if_pos hb]
        exact ih
      · rw [if_neg hb]
        refine pairFree_cons ih ?_
        rintro ⟨hc1, hhd⟩
        rw [head?_collapseSpaces] at hhd
        simp only [List.head?_cons, Option.some.injEq] at hhd
        exact hb ⟨hc1, hhd⟩

lemma collapseSpaces_eq_self : ∀ l : List Char, pairFree l → collapseSpaces l = l := by
  intro l
  induction l with
  | nil => intro h; rfl
  | cons c1 rest ih =>
    intro h
    cases rest with
    | nil => rfl
    | cons c2 r =>
      have hb : ¬(c1 = ' ' ∧ c2 = ' ') := by
        rintro ⟨rfl, rfl⟩
        exact h ⟨[], r, rfl⟩
      rw [collapseSpaces_two, if_neg hb, ih (pairFree_tail h)]

lemma head?_dropWhile_false (p : Char → Bool) :
    ∀ (l : List Char) (c : Char), (l.dropWhile p).head? = some c → p c = false := by
  intro l
  induction l with
  | nil => intro c hc; exact absurd hc (by simp)
  | cons x rest ih =>
    intro c hc
    rw [List.dropWhile_cons] at hc
    by_cases hp : p x
    · rw [if_pos hp] at hc
      exact ih c hc
    · rw [if_neg hp] at hc
      simp only [List.head?_cons, Option.some.injEq] at hc
      subst hc
      simpa using hp

lemma dropWhile_eq_self_of_head (p : Char → Bool) (l : List Char)
    (h : ∀ c, l.head? = some c → p c = false) : l.dropWhile p = l := by
  cases l with
  | nil => rfl
  | cons x rest =>
    rw [List.dropWhile_cons, if_neg]
    rw [h x rfl]
    simp

lemma getLast?_dropWhile (p : Char → Bool) (l : List Char)
    (hne : l.dropWhile p ≠ []) : (l.dropWhile p).getLast? = l.getLast? := by
  conv_rhs => rw [← List.takeWhile_append_dropWhile p l]
  rw [List.getLast?_append_of_ne_nil _ hne]

lemma pyStrip_head (u : List Char) :
    ∀ c, (pyStrip u).head? = some c → isPySpace c = false := by
  intro c hc
  unfold pyStrip at hc
  rw [List.head?_reverse] at hc
  have hne : ((u.dropWhile isPySpace).reverse.dropWhile isPySpace) ≠ [] := by
    intro he
    rw [he] at hc
    exact absurd hc (by simp)
  rw [getLast?_dropWhile _ _ hne, List.getLast?_reverse] at hc
  exact head?_dropWhile_false _ _ c hc

lemma pyStrip_last (u : List Char) :
    ∀ c, (pyStrip u).getLast? = some c → isPySpace c = false := by
  intro c hc
  unfold pyStrip at hc
  rw [List.getLast?_reverse] at hc
  exact head?_dropWhile_false _ _ c hc

lemma pyStrip_eq_self (t : List Char)
    (hh : ∀ c, t.head? = some c → isPySpace c = false)
    (hl : ∀ c, t.getLast? = some c → isPySpace c = false) : pyStrip t = t := by
  unfold pyStrip
  rw [dropWhile_eq_self_of_head _ t hh]
  rw [dropWhile_eq_self_of_head _ t.reverse
    (fun c hc => hl c (by rwa [List.head?_reverse] at hc))]
  rw [List.reverse_reverse]

lemma mem_collapseSpaces {x : Char} : ∀ {l : List Char}, x ∈ collapseSpaces l → x ∈ l := by
  intro l
  induction l with
  | nil => intro h; exact h
  | cons c1 rest ih =>
    intro h
    cases rest with
    | nil => exact h
    | cons c2 r =>
      rw [collapseSpaces_two] at h
      by_cases hb : c1 = ' ' ∧ c2 = ' '
      · rw [if_pos hb] at h
        exact List.mem_cons_of_mem _ (ih h)
      · rw [if_neg hb] at h
        rcases List.mem_cons.mp h with h1 | h1
        · exact h1 ▸ List.mem_cons_self _ _
        · exact List.mem_cons_of_mem _ (ih h1)

lemma mem_pyStrip {x : Char} {l : List Char} (h : x ∈ pyStrip l) : x ∈ l := by
  unfold pyStrip at h
  rw [List.mem_reverse] at h
  have h2 := (List.dropWhile_sublist isPySpace).subset h
  rw [List.mem_reverse] at h2
  exact (List.dropWhile_sublist isPySpace).subset h2

lemma replaceChar_eq_self {c : Char} {r : List Char} :
    ∀ {l : List Char}, c ∉ l → replaceChar c r l = l := by
  intro l
  induction l with
  | nil => intro h; rfl
  | cons x rest ih =>
    intro h
    rw [replaceChar, if_neg (fun he => h (by rw [← he]; exact List.mem_cons_self _ _))]
    rw [ih (fun hm => h (List.mem_cons_of_mem _ hm))]

/-- C3 (amended): sanitization is idempotent on every input containing none
of the escaped characters `&`, `<`, `>` — in particular on already-sanitized
text that contains no escape entities. -/
theorem fix_text_idempotent_entity_free (s : List Char)
    (h : ∀ c ∈ s, c ≠ '&' ∧ c ≠ '<' ∧ c ≠ '>') :
    fix_text (fix_text s) = fix_text s := by
  have hmem : ∀ c ∈ pyStrip (collapseSpaces s), c ≠ '&' ∧ c ≠ '<' ∧ c ≠ '>' :=
    fun c hc => h c (mem_collapseSpaces (mem_pyStrip hc))
  have hamp : '&' ∉ pyStrip (collapseSpaces s) := fun hc => (hmem '&' hc).1 rfl
  have hlt : '<' ∉ pyStrip (collapseSpaces s) := fun hc => (hmem '<' hc).2.1 rfl
  have hgt : '>' ∉ pyStrip (collapseSpaces s) := fun hc => (hmem '>' hc).2.2 rfl
  have hfix : fix_text s = pyStrip (collapseSpaces s) := by
    show replaceChar '<' ("&lt;".data)
      (replaceChar '>' ("&gt;".data)
        (replaceChar '&' ("&amp;".data) (pyStrip (collapseSpaces s))))
      = pyStrip (collapseSpaces s)
    rw [replaceChar_eq_self hamp, replaceChar_eq_self hgt, replaceChar_eq_self hlt]
  rw [hfix]
  have hpf : pairFree (pyStrip (collapseSpaces s)) :=
    pairFree_reverse (pairFree_dropWhile _
      (pairFree_reverse (pairFree_dropWhile _ (pairFree_collapseSpaces s))))
  have hcol : collapseSpaces (pyStrip (collapseSpaces s)) = pyStrip (collapseSpaces s) :=
    collapseSpaces_eq_self _ hpf
  have hstrip : pyStrip (pyStrip (collapseSpaces s)) = pyStrip (collapseSpaces s) :=
    pyStrip_eq_self _ (pyStrip_head _) (pyStrip_last _)
  show replaceChar '<' ("&lt;".data)
      (replaceChar '>' ("&gt;".data)
        (replaceChar '&' ("&amp;".data)
          (pyStrip (collapseSpaces (pyStrip (collapseSpaces s))))))
      = pyStrip (collapseSpaces s)
  rw [hcol, hstrip, replaceChar_eq_self hamp, replaceChar_eq_self hgt,
    replaceChar_eq_self hlt]

theorem fix_text_idempotent_entity_free_witness :
    (∀ c ∈ ("a  b c ".data), c ≠ '&' ∧ c ≠ '<' ∧ c ≠ '>') ∧
    fix_text (fix_text ("a  b c ".data)) = fix_text ("a  b c ".data) :=
  ⟨by decide, fix_text_idempotent_entity_free ("a  b c ".data) (by decide)⟩

/-! ### Time extraction (C5). -/

/-- C5 counterexample: a four-digit year not beginning with `20` is NOT
matched — the regex year group is `(?:20)?\d{2}` — so `05-03-1999 14:22`
yields the empty string instead of the claimed `1422`. -/
theorem extract_time_year_1999_counterexample :
    extract_time ("05-03-1999 14:22".data) = [] ∧
    extract_time ("05-03-1999 14:22".data) ≠ ("1422".data) := by decide

lemma ne_space_of_digit {c : Char} (h : c.isDigit = true) : c ≠ ' ' := by
  intro he
  rw [he] at h
  exact absurd h (by decide)

lemma matchHM_digits {h1 h2 n1 n2 : Char} (post : List Char)
    (hh1 : h1.isDigit = true) (hh2 : h2.isDigit = true)
    (hn1 : n1.isDigit = true) (hn2 : n2.isDigit = true) :
    matchHM (h1 :: h2 :: ':' :: n1 :: n2 :: post) = some [h1, h2, n1, n2] := by
  show (if (h1.isDigit && h2.isDigit && n1.isDigit && n2.isDigit) = true then
      some [h1, h2, n1, n2] else none) = some [h1, h2, n1, n2]
  rw [hh1, hh2, hn1, hn2]
  rfl

lemma matchTail_space {y1 y2 : Char} (rest : List Char)
    (hy1 : y1.isDigit = true) (hy2 : y2.isDigit = true) :
    matchTail (y1 :: y2 :: ' ' :: rest) = matchHM rest := by
  show (if (y1.isDigit && y2.isDigit) = true then matchHM rest else none) = matchHM rest
  rw [hy1, hy2]
  rfl

lemma matchTail_third_ne {a b c : Char} (rest : List Char) (hc : c ≠ ' ') :
    matchTail (a :: b :: c :: rest) = none := by
  unfold matchTail
  split
  · next heq =>
    simp only [List.cons.injEq] at heq
    exact absurd heq.2.2.1 hc
  · rfl

lemma matchYearTime_not20 {y1 y2 : Char} (rest : List Char)
    (h : ¬(y1 = '2' ∧ y2 = '0')) :
    matchYearTime (y1 :: y2 :: rest) = matchTail (y1 :: y2 :: rest) := by
  unfold matchYearTime
  split
  · next heq =>
    simp only [List.cons.injEq] at heq
    exact absurd ⟨heq.1, heq.2.1⟩ h
  · rfl

lemma matchAt_nondigit {c : Char} (l : List Char) (hc : c.isDigit = false) :
    matchAt (c :: l) = none := by
  unfold matchAt
  split
  · next heq =>
    simp only [List.cons.injEq] at heq
    rw [← heq.1] at *
    rw [hc]
    rfl
  · rfl

lemma searchDT_append {pre : List Char} (hpre : ∀ c ∈ pre, c.isDigit = false)
    (rest : List Char) : searchDT (pre ++ rest) = searchDT rest := by
  induction pre with
  | nil => rfl
  | cons c p ih =>
    rw [List.cons_append]
    show (matchAt (c :: (p ++ rest))).orElse (fun _ => searchDT (p ++ rest))
      = searchDT rest
    rw [matchAt_nondigit _ (hpre c (List.mem_cons_self _ _))]
    rw [ih (fun x hx => hpre x (List.mem_cons_of_mem _ hx))]
    rfl

lemma matchHM_some {l r : List Char} (h : matchHM l = some r) :
    ∃ a b c e, a.isDigit = true ∧ b.isDigit = true ∧ c.isDigit = true ∧
      e.isDigit = true ∧ r = [a, b, c, e] := by
  unfold matchHM at h
  split at h
  · next a b c e rest =>
    split at h
    · next hcond =>
      simp only [Bool.and_eq_true] at hcond
      simp only [Option.some.injEq] at h
      exact ⟨a, b, c, e, hcond.1.1.1, hcond.1.1.2, hcond.1.2, hcond.2, h.symm⟩
    · exact absurd h (by simp)
  · exact absurd h (by simp)

lemma matchTail_some {l r : List Char} (h : matchTail l = some r) :
    ∃ a b c e, a.isDigit = true ∧ b.isDigit = true ∧ c.isDigit = true ∧
      e.isDigit = true ∧ r = [a, b, c, e] := by
  unfold matchTail at h
  split at h
  · split at h
    · exact matchHM_some h
    · exact absurd h (by simp)
  · exact absurd h (by simp)

lemma matchYearTime_some {l r : List Char} (h : matchYearTime l = some r) :
    ∃ a b c e, a.isDigit = true ∧ b.isDigit = true ∧ c.isDigit = true ∧
      e.isDigit = true ∧ r = [a, b, c, e] := by
  unfold matchYearTime at h
  split at h
  · next rest =>
    cases hmt : matchTail rest with
    | some r' =>
      rw [hmt] at h
      have hr : r' = r := by
        have h2 : (some r').orElse (fun _ => matchTail ('2' :: '0' :: rest)) = some r' := rfl
        rw [h2] at h
        exact Option.some.inj h
      exact matchTail_some (hmt.trans (by rw [hr]))
    | none =>
      rw [hmt] at h
      have h2 : (none : Option (List Char)).orElse
          (fun _ => matchTail ('2' :: '0' :: rest)) = matchTail ('2' :: '0' :: rest) := rfl
      rw [h2] at h
      exact matchTail_some h
  · exact matchTail_some h

lemma matchAt_some {l r : List Char} (h : matchAt l = some r) :
    ∃ a b c e, a.isDigit = true ∧ b.isDigit = true ∧ c.isDigit = true ∧
      e.isDigit = true ∧ r = [a, b, c, e] := by
  unfold matchAt at h
  split at h
  · split at h
    · exact matchYearTime_some h
    · exact absurd h (by simp)
  · exact absurd h (by simp)

lemma searchDT_some : ∀ {l r : List Char}, searchDT l = some r →
    ∃ a b c e, a.isDigit = true ∧ b.isDigit = true ∧ c.isDigit = true ∧
      e.isDigit = true ∧ r = [a, b, c, e] := by
  intro l
  induction l with
  | nil => intro r h; exact absurd h (by simp [searchDT])
  | cons c rest ih =>
    intro r h
    have hdef : searchDT (c :: rest)
        = (matchAt (c :: rest)).orElse (fun _ => searchDT rest) := rfl
    rw [hdef] at h
    cases hm : matchAt (c :: rest) with
    | some r' =>
      rw [hm] at h
      have hr : r' = r := by
        have : (some r').orElse (fun _ => searchDT rest) = some r' := rfl
        rw [this] at h
        exact Option.some.inj h
      exact matchAt_some (hm.trans (by rw [hr]))
    | none =>
      rw [hm] at h
      have : (none : Option (List Char)).orElse (fun _ => searchDT rest)
          = searchDT rest := rfl
      rw [this] at h
      exact ih h

/-- C5 (amended): time extraction returns the hour-minute digits of the first
date-time occurrence for every two-digit year and for four-digit years of the
form `20YY`; and on every input it returns either the empty string or a
four-character digit string.  (Four-digit years not starting `20` are not
matched — see the counterexample.) -/
theorem extract_time_ok (pre post : List Char) (d1 d2 m1 m2 y1 y2 h1 h2 n1 n2 : Char)
    (hpre : ∀ c ∈ pre, c.isDigit = false)
    (hd1 : d1.isDigit = true) (hd2 : d2.isDigit = true)
    (hm1 : m1.isDigit = true) (hm2 : m2.isDigit = true)
    (hy1 : y1.isDigit = true) (hy2 : y2.isDigit = true)
    (hh1 : h1.isDigit = true) (hh2 : h2.isDigit = true)
    (hn1 : n1.isDigit = true) (hn2 : n2.isDigit = true) :
    extract_time (pre ++ d1 :: d2 :: '-' :: m1 :: m2 :: '-'
        :: y1 :: y2 :: ' ' :: h1 :: h2 :: ':' :: n1 :: n2 :: post)
      = [h1, h2, n1, n2] ∧
    extract_time (pre ++ d1 :: d2 :: '-' :: m1 :: m2 :: '-'
        :: '2' :: '0' :: y1 :: y2 :: ' ' :: h1 :: h2 :: ':' :: n1 :: n2 :: post)
      = [h1, h2, n1, n2] ∧
    ∀ memo, extract_time memo = [] ∨
      ∃ a b c e, a.isDigit = true ∧ b.isDigit = true ∧ c.isDigit = true ∧
        e.isDigit = true ∧ extract_time memo = [a, b, c, e] := by
  have hyt : matchYearTime (y1 :: y2 :: ' ' :: h1 :: h2 :: ':' :: n1 :: n2 :: post)
      = some [h1, h2, n1, n2] := by
    by_cases hy : y1 = '2' ∧ y2 = '0'
    · obtain ⟨rfl, rfl⟩ := hy
      show (matchTail (' ' :: h1 :: h2 :: ':' :: n1 :: n2 :: post)).orElse
          (fun _ => matchTail ('2' :: '0' :: ' ' :: h1 :: h2 :: ':' :: n1 :: n2 :: post))
        = some [h1, h2, n1, n2]
      rw [matchTail_third_ne _ (ne_space_of_digit hh2)]
      show matchTail ('2' :: '0' :: ' ' :: h1 :: h2 :: ':' :: n1 :: n2 :: post)
        = some [h1, h2, n1, n2]
      rw [matchTail_space _ (by decide) (by decide)]
      exact matchHM_digits _ hh1 hh2 hn1 hn2
    · rw [matchYearTime_not20 _ hy, matchTail_space _ hy1 hy2]
      exact matchHM_digits _ hh1 hh2 hn1 hn2
  have hyt20 : matchYearTime ('2' :: '0'
      :: y1 :: y2 :: ' ' :: h1 :: h2 :: ':' :: n1 :: n2 :: post)
      = some [h1, h2, n1, n2] := by
    show (matchTail (y1 :: y2 :: ' ' :: h1 :: h2 :: ':' :: n1 :: n2 :: post)).orElse
        (fun _ => matchTail ('2' :: '0'
          :: y1 :: y2 :: ' ' :: h1 :: h2 :: ':' :: n1 :: n2 :: post))
      = some [h1, h2, n1, n2]
    rw [matchTail_space _ hy1 hy2, matchHM_digits _ hh1 hh2 hn1 hn2]
    rfl
  refine ⟨?_, ?_, ?_⟩
  · unfold extract_time
    rw [searchDT_append hpre]
    have hma : matchAt (d1 :: d2 :: '-' :: m1 :: m2 :: '-'
        :: y1 :: y2 :: ' ' :: h1 :: h2 :: ':' :: n1 :: n2 :: post)
        = some [h1, h2, n1, n2] := by
      show (if d1.isDigit && d2.isDigit && m1.isDigit && m2.isDigit then
          matchYearTime (y1 :: y2 :: ' ' :: h1 :: h2 :: ':' :: n1 :: n2 :: post)
        else none) = some [h1, h2, n1, n2]
      rw [hd1, hd2, hm1, hm2]
      simpa using hyt
    have hdef : searchDT (d1 :: d2 :: '-' :: m1 :: m2 :: '-'
        :: y1 :: y2 :: ' ' :: h1 :: h2 :: ':' :: n1 :: n2 :: post)
        = (matchAt (d1 :: d2 :: '-' :: m1 :: m2 :: '-'
            :: y1 :: y2 :: ' ' :: h1 :: h2 :: ':' :: n1 :: n2 :: post)).orElse
          (fun _ => searchDT (d2 :: '-' :: m1 :: m2 :: '-'
            :: y1 :: y2 :: ' ' :: h1 :: h2 :: ':' :: n1 :: n2 :: post)) := rfl
    rw [hdef, hma]
    rfl
  · unfold extract_time
    rw [searchDT_append hpre]
    have hma : matchAt (d1 :: d2 :: '-' :: m1 :: m2 :: '-' :: '2' :: '0'
        :: y1 :: y2 :: ' ' :: h1 :: h2 :: ':' :: n1 :: n2 :: post)
        = some [h1, h2, n1, n2] := by
      show (if d1.isDigit && d2.isDigit && m1.isDigit && m2.isDigit then
          matchYearTime ('2' :: '0'
            :: y1 :: y2 :: ' ' :: h1 :: h2 :: ':' :: n1 :: n2 :: post)
        else none) = some [h1, h2, n1, n2]
      rw [hd1, hd2, hm1, hm2]
      simpa using hyt20
    have hdef : searchDT (d1 :: d2 :: '-' :: m1 :: m2 :: '-' :: '2' :: '0'
        :: y1 :: y2 :: ' ' :: h1 :: h2 :: ':' :: n1 :: n2 :: post)
        = (matchAt (d1 :: d2 :: '-' :: m1 :: m2 :: '-' :: '2' :: '0'
            :: y1 :: y2 :: ' ' :: h1 :: h2 :: ':' :: n1 :: n2 :: post)).orElse
          (fun _ => searchDT (d2 :: '-' :: m1 :: m2 :: '-' :: '2' :: '0'
            :: y1 :: y2 :: ' ' :: h1 :: h2 :: ':' :: n1 :: n2 :: post)) := rfl
    rw [hdef, hma]
    rfl
  · intro memo
    cases hs : searchDT memo with
    | none =>
      left
      unfold extract_time
      rw [hs]
    | some r =>
      right
      obtain ⟨a, b, c, e, ha, hb, hc, he, hr⟩ := searchDT_some hs
      exact ⟨a, b, c, e, ha, hb, hc, he, by unfold extract_time; rw [hs, hr]⟩

theorem extract_time_ok_witness :
    (∀ c ∈ ("at ".data), c.isDigit = false) ∧
    extract_time (("at ".data) ++ '0' :: '5' :: '-' :: '0' :: '3' :: '-'
        :: '1' :: '7' :: ' ' :: '1' :: '4' :: ':' :: '2' :: '2' :: (" x".data))
      = ['1', '4', '2', '2'] :=
  ⟨by decide,
   (extract_time_ok ("at ".data) (" x".data) '0' '5' '0' '3' '1' '7' '1' '4' '2' '2'
     (by decide) (by decide) (by decide) (by decide) (by decide) (by decide)
     (by decide) (by decide) (by decide) (by decide) (by decide)).1⟩

/-! ### Statement rendering (C8). -/

/-- The integer value `int(t['dtposted'])` of a transaction's posted date. -/
def dateVal (t : Txn) : Nat :=
  t.dtposted.foldl (fun a c => 10 * a + (c.toNat - 48)) 0

lemma strToNat?_of_date {l : List Char} (hlen : l.length = 8)
    (hdig : l.all Char.isDigit = true) :
    strToNat? l = some (l.foldl (fun a c => 10 * a + (c.toNat - 48)) 0) := by
  unfold strToNat?
  have hne : l.isEmpty = false := by
    cases l with
    | nil => simp at hlen
    | cons c r => rfl
  rw [hne, hdig]
  rfl

lemma mapM_dates {ts : List Txn}
    (h : ∀ t ∈ ts, t.dtposted.length = 8 ∧ t.dtposted.all Char.isDigit = true) :
    ts.mapM (fun t => strToNat? t.dtposted) = some (ts.map dateVal) := by
  induction ts with
  | nil => rfl
  | cons t rest ih =>
    rw [List.mapM_cons]
    obtain ⟨h1, h2⟩ := h t (List.mem_cons_self _ _)
    rw [strToNat?_of_date h1 h2, ih (fun u hu => h u (List.mem_cons_of_mem _ hu))]
    rfl

/-- C8: for a nonempty group whose posted dates are 8-digit strings, the
renderer emits one statement block per distinct account, each block holding
exactly that account's transactions in original order, and every block's
period start/end are the group-wide numeric minimum/maximum posted date. -/
theorem write_ofx_blocks (ts : List Txn) (hne : ts ≠ [])
    (hdt : ∀ t ∈ ts, t.dtposted.length = 8 ∧ t.dtposted.all Char.isDigit = true) :
    ∃ blocks, write_ofx_file ts = some blocks ∧
      (blocks.map (fun b => b.account)).Nodup ∧
      (∀ a, (∃ b ∈ blocks, b.account = a) ↔ (∃ t ∈ ts, t.account = a)) ∧
      (∀ b ∈ blocks, b.txns = ts.filter (fun t => decide (t.account = b.account))) ∧
      (∀ b ∈ blocks,
        (∃ t ∈ ts, dateVal t = b.dtstart) ∧ (∀ t ∈ ts, b.dtstart ≤ dateVal t) ∧
        (∃ t ∈ ts, dateVal t = b.dtend) ∧ (∀ t ∈ ts, dateVal t ≤ b.dtend)) := by
  have hmap := mapM_dates hdt
  have hdne : ts.map dateVal ≠ [] := by
    intro he
    exact hne (List.map_eq_nil_iff.mp he)
  obtain ⟨mi, hmin⟩ : ∃ mi, (ts.map dateVal).min? = some mi := by
    cases hm : (ts.map dateVal).min? with
    | none => exact absurd (List.min?_eq_none_iff.mp hm) hdne
    | some mi => exact ⟨mi, rfl⟩
  obtain ⟨ma, hmax⟩ : ∃ ma, (ts.map dateVal).max? = some ma := by
    cases hm : (ts.map dateVal).max? with
    | none => exact absurd (List.max?_eq_none_iff.mp hm) hdne
    | some ma => exact ⟨ma, rfl⟩
  obtain ⟨hmi_mem, hmi_le⟩ := List.min?_eq_some_iff'.mp hmin
  obtain ⟨hma_mem, hma_le⟩ := List.max?_eq_some_iff'.mp hmax
  have hrange : find_date_range ts = some (mi, ma) := by
    unfold find_date_range
    rw [hmap]
    show ((ts.map dateVal).min?).bind
        (fun mi => ((ts.map dateVal).max?).bind (fun ma => some (mi, ma))) = some (mi, ma)
    rw [hmin, hmax]
    rfl
  refine ⟨(find_accounts ts).map (fun a =>
      ⟨a, mi, ma, ts.filter (fun t => decide (t.account = a))⟩), ?_, ?_, ?_, ?_, ?_⟩
  · unfold write_ofx_file
    rw [hrange]
    rfl
  · have : ((find_accounts ts).map (fun a =>
        (⟨a, mi, ma, ts.filter (fun t => decide (t.account = a))⟩ : Stmt))).map
          (fun b => b.account) = find_accounts ts := by
      rw [List.map_map]
      have hcomp : ((fun b => b.account) ∘ fun a =>
          (⟨a, mi, ma, ts.filter (fun t => decide (t.account = a))⟩ : Stmt))
          = fun a => a := rfl
      rw [hcomp]
      exact List.map_id' _
    rw [this]
    exact List.nodup_dedup _
  · intro a
    constructor
    · rintro ⟨b, hb, rfl⟩
      obtain ⟨a', ha', rfl⟩ := List.mem_map.mp hb
      have : a' ∈ ts.map (fun t => t.account) := List.mem_dedup.mp ha'
      obtain ⟨t, ht, rfl⟩ := List.mem_map.mp this
      exact ⟨t, ht, rfl⟩
    · rintro ⟨t, ht, rfl⟩
      refine ⟨⟨t.account, mi, ma, ts.filter (fun u => decide (u.account = t.account))⟩,
        ?_, rfl⟩
      exact List.mem_map.mpr ⟨t.account,
        List.mem_dedup.mpr (List.mem_map.mpr ⟨t, ht, rfl⟩), rfl⟩
  · intro b hb
    obtain ⟨a', ha', rfl⟩ := List.mem_map.mp hb
    rfl
  · intro b hb
    obtain ⟨a', ha', rfl⟩ := List.mem_map.mp hb
    refine ⟨?_, ?_, ?_, ?_⟩
    · obtain ⟨t, ht, hv⟩ := List.mem_map.mp hmi_mem
      exact ⟨t, ht, hv⟩
    · intro t ht
      exact hmi_le _ (List.mem_map.mpr ⟨t, ht, rfl⟩)
    · obtain ⟨t, ht, hv⟩ := List.mem_map.mp hma_mem
      exact ⟨t, ht, hv⟩
    · intro t ht
      exact hma_le _ (List.mem_map.mpr ⟨t, ht, rfl⟩)

/-- Concrete transactions for the C8 witness: two accounts, dates out of
order. -/
def wTxn8a : Txn :=
  ⟨("A1".data), ("PAYMENT".data), ("20170215".data), ("5.00".data),
   ("X20170215500".data), ("n".data), ("X".data), ("".data)⟩

def wTxn8b : Txn :=
  ⟨("A2".data), ("POS".data), ("20170101".data), ("-1.00".data),
   ("Y20170101100".data), ("n".data), ("Y".data), ("".data)⟩

theorem write_ofx_blocks_witness :
    (([wTxn8a, wTxn8b] : List Txn) ≠ [] ∧
      ∀ t ∈ ([wTxn8a, wTxn8b] : List Txn),
        t.dtposted.length = 8 ∧ t.dtposted.all Char.isDigit = true) ∧
    ∃ blocks, write_ofx_file [wTxn8a, wTxn8b] = some blocks ∧
      (blocks.map (fun b => b.account)).Nodup :=
  ⟨⟨by decide, by decide⟩, by
    obtain ⟨blocks, hb, hnd, -⟩ := write_ofx_blocks [wTxn8a, wTxn8b] (by decide) (by decide)
    exact ⟨blocks, hb, hnd⟩⟩

/-! ### Account normalization (C9). -/

/-- Row whose account identifier has an interior space. -/
def spacedRow : Row :=
  ⟨("A B".data), ("20170101".data), ("GT".data), ("Af".data), ("1,00".data),
   ("n".data), ("NL2".data), ("".data)⟩

/-- C9 counterexample: the account field of the produced transaction is the
raw identifier with ALL spaces removed — the interior space of `A B` is
deleted too, so the result is `AB`, not the claimed whitespace-stripped
`A B`. -/
theorem account_strip_counterexample :
    (process_row spacedRow []).map (fun t => t.account) = some ("AB".data) ∧
    ("AB".data : List Char) ≠ ("A B".data) := by decide

lemma replaceChar_space_filter : ∀ l : List Char,
    replaceChar ' ' [] l = l.filter (fun c => c != ' ') := by
  intro l
  induction l with
  | nil => rfl
  | cons c rest ih =>
    by_cases hc : c = ' '
    · subst hc
      rw [replaceChar, if_pos rfl, List.filter_cons]
      simpa using ih
    · rw [replaceChar, if_neg hc, List.filter_cons, ih]
      have hb : (c != ' ') = true := by simpa using hc
      rw [hb, if_pos rfl]

/-- C9 (amended): the transaction's account field equals the raw account
identifier with every space character removed — interior spaces included,
not merely leading/trailing whitespace. -/
theorem account_removes_all_spaces (row : Row) (ids : List (List Char)) (t : Txn)
    (h : process_row row ids = some t) :
    t.account = replaceChar ' ' [] row.Rekening ∧
    t.account = row.Rekening.filter (fun c => c != ' ') := by
  obtain ⟨ha, -⟩ := process_row_fields row ids t h
  exact ⟨ha, ha.trans (replaceChar_space_filter _)⟩

/-- The transaction produced from `spacedRow`. -/
def spacedTxn : Txn :=
  ⟨("AB".data), ("PAYMENT".data), ("20170101".data), ("-1.00".data),
   ("NL220170101100".data), ("n".data), ("NL2".data), ("".data)⟩

theorem account_removes_all_spaces_witness :
    process_row spacedRow [] = some spacedTxn ∧
    (spacedTxn.account = replaceChar ' ' [] spacedRow.Rekening ∧
      spacedTxn.account = spacedRow.Rekening.filter (fun c => c != ' ')) :=
  ⟨by decide, account_removes_all_spaces spacedRow [] spacedTxn (by decide)⟩

/-! ### Fingerprint time comes from the sanitized memo (C10). -/

/-- C10: the time component of the uniqueness fingerprint is extracted from
the sanitized memo (`fix_text` applied to the raw notes), not from the raw
notes; a raw notes field with a double space between date and time still
yields `1422` after sanitization, while the raw field itself would yield
nothing. -/
theorem fingerprint_time_from_sanitized_memo (row : Row) (ids : List (List Char))
    (t : Txn) (h : process_row row ids = some t) :
    t.memo = fix_text row.Mededelingen ∧
    t.fitid = make_unique_id row.Tegenrekening row.Datum
      (extract_time (fix_text row.Mededelingen))
      (get_transaction_amount row.Bedrag row.AfBij) ids ∧
    extract_time (fix_text ("05-03-17  14:22".data)) = ("1422".data) ∧
    extract_time ("05-03-17  14:22".data) = [] := by
  obtain ⟨-, -, -, -, -, -, hmemo, hfit⟩ := process_row_fields row ids t h
  exact ⟨hmemo, hfit, by decide, by decide⟩

/-- Row whose raw notes hold a date-time separated by a double space. -/
def doubleSpaceRow : Row :=
  ⟨("NL1".data), ("20170101".data), ("GT".data), ("Af".data), ("1,00".data),
   ("n".data), ("NL2".data), ("05-03-17  14:22".data)⟩

/-- Its transaction: the collapsed memo lets the time `1422` reach the
fingerprint. -/
def doubleSpaceTxn : Txn :=
  ⟨("NL1".data), ("PAYMENT".data), ("20170101".data), ("-1.00".data),
   ("NL2201701011422100".data), ("n".data), ("NL2".data),
   ("05-03-17 14:22".data)⟩

theorem fingerprint_time_from_sanitized_memo_witness :
    process_row doubleSpaceRow [] = some doubleSpaceTxn ∧
    (doubleSpaceTxn.memo = fix_text doubleSpaceRow.Mededelingen ∧
      doubleSpaceTxn.fitid = make_unique_id doubleSpaceRow.Tegenrekening
        doubleSpaceRow.Datum (extract_time (fix_text doubleSpaceRow.Mededelingen))
        (get_transaction_amount doubleSpaceRow.Bedrag doubleSpaceRow.AfBij) [] ∧
      extract_time (fix_text ("05-03-17  14:22".data)) = ("1422".data) ∧
      extract_time ("05-03-17  14:22".data) = []) :=
  ⟨by decide,
   fingerprint_time_from_sanitized_memo doubleSpaceRow [] doubleSpaceTxn (by decide)⟩

end IngToOfx
